import Mathlib

set_option maxHeartbeats 1000000

/-!
Shallow embedding of `src/my_model_selectors.py` (the model-selection
strategy layer of an HMM sign-language recognizer) together with proofs
about the four selection strategies.

Conventions of the embedding:
* Python floats are modelled as exact rationals (`Rat`); the special values
  `float('inf')`, `float('-inf')` and IEEE NaN (which arises from
  `np.mean([])`) that occur in the selector loops are modelled by the
  four-constructor type `PFloat`.
* A raised exception inside a `try` block is modelled by `Except.error ()`;
  the bare `except: continue` handlers of the source correspond to the
  `.error` branches of the per-candidate evaluation functions.
* The external `hmmlearn` fitter and `math.log` are opaque collaborators,
  bundled in `Env`; a fitted model is opaque except for the three members
  the source reads (`n_components`, `n_features`, `score`).
-/

/-- An observation matrix `X` (one row per feature vector) together with the
per-sequence `lengths` vector, i.e. Python's `(self.X, self.lengths)` pair. -/
structure Data where
  X : List (List Rat)
  lengths : List Nat
deriving DecidableEq

/-- A raw observation sequence, as stored in `all_word_sequences`. -/
abbrev RawSeq := List (List Rat)

/-- Opaque fitted `GaussianHMM`.  The source reads exactly three members of a
fitted model: `n_components`, `n_features`, and `score`; `score` may raise,
which is modelled by `Except`. -/
structure Model where
  n_components : Nat
  n_features : Nat
  score : Data → Except Unit Rat

/-- External collaborators.  `fit d n` is
`GaussianHMM(n_components=n, covariance_type="diag", n_iter=1000, random_state=..).fit(d.X, d.lengths)`
(lines 39-40), which either returns a fitted model or raises; the fixed
seed makes it a function of its arguments.  `mlog n` is `math.log(n)`
(line 87), an opaque real-valued routine modelled as returning an exact
rational. -/
structure Env where
  fit : Data → Nat → Except Unit Model
  mlog : Nat → Rat

/-- Python float values reachable by the running-score variables of the
selector loops: `float('inf')` (line 79), `float('-inf')` (lines 114, 148),
IEEE NaN (from `np.mean` of an empty list, line 128), or an ordinary value. -/
inductive PFloat where
  | nan
  | ninf
  | inf
  | val (q : Rat)

/-- Strict `<` on `PFloat` with IEEE semantics: every comparison involving
NaN is false. -/
def PFloat.lt : PFloat → PFloat → Bool
  | .nan, _ => false
  | _, .nan => false
  | .inf, _ => false
  | _, .inf => true
  | .ninf, .ninf => false
  | .ninf, .val _ => true
  | .val _, .ninf => false
  | .val a, .val b => decide (a < b)

/-- Subtraction `a - x` of a `PFloat` from an ordinary float, as used in
`model_score - np.mean(scores)` (line 128). -/
def PFloat.rsub (a : Rat) : PFloat → PFloat
  | .nan => .nan
  | .inf => .ninf
  | .ninf => .inf
  | .val b => .val (a - b)

/-- `np.mean` on a list of floats: NaN on the empty list (numpy emits a
`RuntimeWarning`, not an exception, and returns NaN), the arithmetic mean
otherwise. -/
def npMean (l : List Rat) : PFloat :=
  if l.length = 0 then .nan else .val (l.sum / (l.length : Rat))

/-- The state of a `ModelSelector` instance after `__init__` (lines 16-29):
`hwords` is `all_word_Xlengths` (insertion-ordered dict as an association
list), `sequences` is `all_word_sequences[this_word]`, `X_lengths` is the
`(self.X, self.lengths)` pair, and the three integer parameters keep their
source names. -/
structure ModelSelector where
  hwords : List (String × Data)
  sequences : List RawSeq
  X_lengths : Data
  this_word : String
  n_constant : Nat
  min_n_components : Nat
  max_n_components : Nat

/-- `ModelSelector.base_model` (lines 34-47): fit a `GaussianHMM` with
`num_states` components on `(self.X, self.lengths)`; every fitting
exception is caught by the bare `except` and turned into `None`. -/
def ModelSelector.base_model (s : ModelSelector) (env : Env) (num_states : Nat) :
    Option Model :=
  match env.fit s.X_lengths num_states with
  | .ok m => some m
  | .error _ => none

/-- Reading `model.n_features` when `model` may be `None`: an
`AttributeError` (modelled as `Except.error`) is raised on `None`. -/
def nFeaturesOf : Option Model → Except Unit Nat
  | none => .error ()
  | some m => .ok m.n_features

/-- Calling `model.score(d.X, d.lengths)` when `model` may be `None`: an
`AttributeError` is raised on `None`, and the score itself may raise. -/
def scoreOf : Option Model → Data → Except Unit Rat
  | none, _ => .error ()
  | some m, d => m.score d

/-- The candidate scan `range(self.min_n_components, self.max_n_components + 1)`
(lines 82, 117, 152). -/
def candidateRange (s : ModelSelector) : List Nat :=
  List.range' s.min_n_components (s.max_n_components + 1 - s.min_n_components)

/-- `SelectorConstant.select` (lines 55-61): fit with `self.n_constant`
states, no search. -/
def SelectorConstant_select (env : Env) (s : ModelSelector) : Option Model :=
  s.base_model env s.n_constant

/-- The body of one iteration of `SelectorBIC.select`'s `try` block
(lines 83-91, up to and including the score computation): fit with `idx`
states, read `model.n_features`, compute
`parameters_n = idx ** 2 + 2 * idx * model.n_features - 1` and
`score = -2 * model.score(self.X, self.lengths) + parameters_n * math.log(len(self.X))`.
Any raise maps to `Except.error`. -/
def tryBIC (env : Env) (s : ModelSelector) (idx : Nat) :
    Except Unit (Option Model × Rat) :=
  let model := s.base_model env idx
  match nFeaturesOf model with
  | .error e => .error e
  | .ok d =>
    let parameters_n : Int := (idx : Int) ^ 2 + 2 * (idx : Int) * (d : Int) - 1
    match scoreOf model s.X_lengths with
    | .error e => .error e
    | .ok logL =>
      .ok (model, -2 * logL + (parameters_n : Rat) * env.mlog s.X_lengths.X.length)

/-- One step of `SelectorBIC.select`'s candidate loop (lines 82-94): on an
exception, `continue`; otherwise update `(lowest_score, best_model)` when
`score < lowest_score`. -/
def bicStep (env : Env) (s : ModelSelector) (acc : PFloat × Option Model)
    (idx : Nat) : PFloat × Option Model :=
  match tryBIC env s idx with
  | .error _ => acc
  | .ok (model, score) =>
    if PFloat.lt (.val score) acc.1 then (.val score, model) else acc

/-- `SelectorBIC.select` (lines 71-96): `lowest_score = float('inf')`,
`best_model = self.base_model(self.n_constant)`, scan the candidate range
in ascending order, return `best_model`. -/
def SelectorBIC_select (env : Env) (s : ModelSelector) : Option Model :=
  ((candidateRange s).foldl (bicStep env s)
    (PFloat.inf, s.base_model env s.n_constant)).2

/-- The loop `for word, (test_x, test_lengths) in self.hwords.items(): if
word != self.this_word: scores.append(model.score(test_x, test_lengths))`
(lines 121-125); an exception at any item aborts the whole candidate. -/
def otherScores (model : Option Model) (hwords : List (String × Data))
    (w : String) : Except Unit (List Rat) :=
  match hwords with
  | [] => .ok []
  | (word, d) :: rest =>
    if word ≠ w then
      match scoreOf model d with
      | .error e => .error e
      | .ok sc =>
        match otherScores model rest w with
        | .error e => .error e
        | .ok tail => .ok (sc :: tail)
    else otherScores model rest w

/-- The body of one iteration of `SelectorDIC.select`'s `try` block
(lines 118-128): fit with `i` states, score against every other word,
score against the word's own data, and compute
`score = model_score - np.mean(scores)`.  `model` is bound once in the
source (line 120); `base_model` is a pure function of its arguments, so
the `let` denotes that single value. -/
def tryDIC (env : Env) (s : ModelSelector) (i : Nat) :
    Except Unit (Option Model × PFloat) :=
  let model := s.base_model env i
  match otherScores model s.hwords s.this_word with
  | .error e => .error e
  | .ok scores =>
    match scoreOf model s.X_lengths with
    | .error e => .error e
    | .ok model_score => .ok (model, PFloat.rsub model_score (npMean scores))

/-- One step of `SelectorDIC.select`'s candidate loop (lines 117-135): on an
exception, `continue`; otherwise update `(highest_score, best_model)` when
`score > highest_score`. -/
def dicStep (env : Env) (s : ModelSelector) (acc : PFloat × Option Model)
    (i : Nat) : PFloat × Option Model :=
  match tryDIC env s i with
  | .error _ => acc
  | .ok (model, score) =>
    if PFloat.lt acc.1 score then (score, model) else acc

/-- `SelectorDIC.select` (lines 110-137). -/
def SelectorDIC_select (env : Env) (s : ModelSelector) : Option Model :=
  ((candidateRange s).foldl (dicStep env s)
    (PFloat.ninf, s.base_model env s.n_constant)).2

/-- Line 157 evaluates `KFold(n_splits=splits)(self.sequences)`: a
`sklearn.model_selection.KFold` instance defines no `__call__`, so this
call raises `TypeError` for every argument (the source never invokes the
`split` method).  The result type `Empty` records that no successful
outcome exists. -/
def kfoldAsCallable (_n_splits : Nat) (_sequences : List RawSeq) :
    Except Unit Empty :=
  .error ()

/-- The body of one iteration of `SelectorCV.select`'s `try` block
(lines 153-165): fit with `idx` states (line 154, no member access, so a
`None` result does not raise here), then construct the fold iterator
(line 157), which raises `TypeError`.  The fold loop of lines 158-162 and
the mean of line 164 are therefore unreachable, which the `Empty`
elimination makes precise. -/
def tryCV (env : Env) (s : ModelSelector) (idx : Nat) :
    Except Unit (Option Model × PFloat) :=
  let _model := s.base_model env idx
  match kfoldAsCallable 3 s.sequences with
  | .error e => .error e
  | .ok folds => folds.elim

/-- One step of `SelectorCV.select`'s candidate loop (lines 152-169). -/
def cvStep (env : Env) (s : ModelSelector) (acc : PFloat × Option Model)
    (idx : Nat) : PFloat × Option Model :=
  match tryCV env s idx with
  | .error _ => acc
  | .ok (model, score) =>
    if PFloat.lt acc.1 score then (score, model) else acc

/-- `SelectorCV.select` (lines 145-171): `splits = 3`,
`highest_score = float('-inf')`, `best_model = self.base_model(self.n_constant)`. -/
def SelectorCV_select (env : Env) (s : ModelSelector) : Option Model :=
  ((candidateRange s).foldl (cvStep env s)
    (PFloat.ninf, s.base_model env s.n_constant)).2

/-! Specification-side definitions, used to characterize the selection
loops. -/

/-- The `(score, model)` pairs of the candidates whose BIC evaluation
succeeds, scanned over the list `l` in order. -/
def bicResultsOf (env : Env) (s : ModelSelector) (l : List Nat) :
    List (Rat × Option Model) :=
  l.filterMap fun i =>
    match tryBIC env s i with
    | .ok p => some (p.2, p.1)
    | .error _ => none

/-- The successful BIC candidates of the full ascending scan. -/
def bicResults (env : Env) (s : ModelSelector) : List (Rat × Option Model) :=
  bicResultsOf env s (candidateRange s)

/-- The `(score, model)` pairs of the candidates whose DIC evaluation
succeeds with an ordinary (non-NaN) score, scanned over `l` in order. -/
def dicResultsValOf (env : Env) (s : ModelSelector) (l : List Nat) :
    List (Rat × Option Model) :=
  l.filterMap fun i =>
    match tryDIC env s i with
    | .ok (mo, PFloat.val q) => some (q, mo)
    | _ => none

/-- The successfully scored (non-NaN) DIC candidates of the full scan. -/
def dicResultsVal (env : Env) (s : ModelSelector) : List (Rat × Option Model) :=
  dicResultsValOf env s (candidateRange s)

/-- Specification-side selection rule: the first entry of the list that
achieves the strictly minimal score (ties go to the earliest entry). -/
def firstMinRat : List (Rat × Option Model) → Option (Rat × Option Model)
  | [] => none
  | e :: rest =>
    match firstMinRat rest with
    | none => some e
    | some y => if y.1 < e.1 then some y else some e

/-- Specification-side selection rule: the first entry of the list that
achieves the strictly maximal score (ties go to the earliest entry). -/
def firstMaxRat : List (Rat × Option Model) → Option (Rat × Option Model)
  | [] => none
  | e :: rest =>
    match firstMaxRat rest with
    | none => some e
    | some y => if e.1 < y.1 then some y else some e

/-- Apply one keep-the-minimum update to a `(running score, running model)`
pair. -/
def applyMin (acc : PFloat × Option Model) :
    Option (Rat × Option Model) → PFloat × Option Model
  | none => acc
  | some p => if PFloat.lt (.val p.1) acc.1 then (.val p.1, p.2) else acc

/-- Apply one keep-the-maximum update to a `(running score, running model)`
pair. -/
def applyMax (acc : PFloat × Option Model) :
    Option (Rat × Option Model) → PFloat × Option Model
  | none => acc
  | some p => if PFloat.lt acc.1 (.val p.1) then (.val p.1, p.2) else acc

/-- The contract of the external fitter: a successfully fitted model has the
requested number of hidden states (`GaussianHMM(n_components=n)` keeps
`n_components = n`). -/
def fitComponentsOk (env : Env) : Prop :=
  ∀ d n m, env.fit d n = Except.ok m → m.n_components = n

/-! Concrete instances used to instantiate the theorems. -/

/-- A small concrete observation set: four 1-dimensional feature vectors in
two sequences of length 2. -/
def dataW : Data := ⟨[[0], [1], [2], [3]], [2, 2]⟩

/-- A concrete fitted model with `n` states, one feature, and constant
log-likelihood 10 on every observation set. -/
def modelOkW (n : Nat) : Model :=
  { n_components := n, n_features := 1, score := fun _ => .ok 10 }

/-- An environment whose fitter always succeeds and whose `math.log`
evaluates to 1. -/
def envOkW : Env :=
  { fit := fun _ n => .ok (modelOkW n), mlog := fun _ => 1 }

/-- An environment whose fitter always fails. -/
def envFailW : Env :=
  { fit := fun _ _ => .error (), mlog := fun _ => 1 }

/-- A concrete selection context: two words, three raw sequences for the
target word, candidate range `[2, 3]`, fallback `n_constant = 5`. -/
def selW : ModelSelector :=
  { hwords := [("a", dataW), ("b", dataW)]
    sequences := [[[0], [1]], [[2], [3]], [[4], [5]]]
    X_lengths := dataW
    this_word := "a"
    n_constant := 5
    min_n_components := 2
    max_n_components := 3 }

/-- A context whose collection contains only the target word itself. -/
def selOnlyW : ModelSelector :=
  { hwords := [("a", dataW)]
    sequences := [[[0], [1]], [[2], [3]], [[4], [5]]]
    X_lengths := dataW
    this_word := "a"
    n_constant := 5
    min_n_components := 2
    max_n_components := 3 }

/-- A context whose target word has a single raw sequence (fewer than the
`splits = 3` fold count of `SelectorCV`). -/
def selShortW : ModelSelector :=
  { hwords := [("a", dataW), ("b", dataW)]
    sequences := [[[0], [1]]]
    X_lengths := dataW
    this_word := "a"
    n_constant := 5
    min_n_components := 2
    max_n_components := 3 }

/-- The state-count invariant of claim C7 for a possibly absent model: if a
model is present, its hidden-state count lies in the candidate interval or
equals the fallback count. -/
def statesOk (s : ModelSelector) (om : Option Model) : Prop :=
  ∀ m, om = some m →
    (s.min_n_components ≤ m.n_components ∧ m.n_components ≤ s.max_n_components)
      ∨ m.n_components = s.n_constant

/-! Helper lemmas about the embedding. -/

theorem PFloat.lt_nan_eq_false (x : PFloat) : PFloat.lt x PFloat.nan = false := by
  cases x <;> rfl

theorem foldl_fixed {step : (PFloat × Option Model) → Nat → PFloat × Option Model} :
    ∀ (l : List Nat), (∀ acc i, i ∈ l → step acc i = acc) →
      ∀ acc, l.foldl step acc = acc := by
  intro l
  induction l with
  | nil => intro _ acc; rfl
  | cons i t ih =>
    intro h acc
    rw [List.foldl_cons, h acc i (List.mem_cons_self i t)]
    exact ih (fun a j hj => h a j (List.mem_cons_of_mem _ hj)) acc

theorem foldl_snd_invariant {step : (PFloat × Option Model) → Nat → PFloat × Option Model}
    (P : Option Model → Prop) :
    ∀ (l : List Nat), (∀ acc i, i ∈ l → P acc.2 → P (step acc i).2) →
      ∀ acc, P acc.2 → P ((l.foldl step acc).2) := by
  intro l
  induction l with
  | nil => intro _ acc hacc; exact hacc
  | cons i t ih =>
    intro h acc hacc
    rw [List.foldl_cons]
    exact ih (fun a j hj => h a j (List.mem_cons_of_mem _ hj)) _
      (h acc i (List.mem_cons_self i t) hacc)

theorem nFeaturesOf_ok {mo : Option Model} {d : Nat} (h : nFeaturesOf mo = Except.ok d) :
    ∃ m, mo = some m ∧ m.n_features = d := by
  cases mo with
  | none => exact absurd h (by simp [nFeaturesOf])
  | some m => exact ⟨m, rfl, by simpa [nFeaturesOf] using h⟩

theorem scoreOf_ok {mo : Option Model} {d : Data} {q : Rat}
    (h : scoreOf mo d = Except.ok q) : ∃ m, mo = some m ∧ m.score d = Except.ok q := by
  cases mo with
  | none => exact absurd h (by simp [scoreOf])
  | some m => exact ⟨m, rfl, h⟩

theorem base_model_some {s : ModelSelector} {env : Env} {n : Nat} {m : Model}
    (h : s.base_model env n = some m) : env.fit s.X_lengths n = Except.ok m := by
  unfold ModelSelector.base_model at h
  cases hf : env.fit s.X_lengths n with
  | ok m2 => rw [hf] at h; injection h with h2; rw [h2]
  | error e => rw [hf] at h; exact Option.noConfusion h

theorem mem_candidateRange {s : ModelSelector} {i : Nat} :
    i ∈ candidateRange s ↔ s.min_n_components ≤ i ∧ i ≤ s.max_n_components := by
  unfold candidateRange
  rw [List.mem_range'_1]
  omega

theorem tryBIC_ok {env : Env} {s : ModelSelector} {idx : Nat} {mo : Option Model}
    {sc : Rat} (h : tryBIC env s idx = Except.ok (mo, sc)) :
    ∃ m, mo = some m ∧ s.base_model env idx = some m := by
  simp only [tryBIC] at h
  cases hf : nFeaturesOf (s.base_model env idx) with
  | error e => rw [hf] at h; exact Except.noConfusion h
  | ok d =>
    rw [hf] at h
    cases hs : scoreOf (s.base_model env idx) s.X_lengths with
    | error e => rw [hs] at h; exact Except.noConfusion h
    | ok logL =>
      rw [hs] at h
      injection h with h2
      injection h2 with h3 h4
      obtain ⟨m, hm, _⟩ := nFeaturesOf_ok hf
      exact ⟨m, by rw [← h3]; exact hm, hm⟩

theorem tryDIC_ok {env : Env} {s : ModelSelector} {i : Nat} {mo : Option Model}
    {sc : PFloat} (h : tryDIC env s i = Except.ok (mo, sc)) :
    ∃ m, mo = some m ∧ s.base_model env i = some m := by
  simp only [tryDIC] at h
  cases ho : otherScores (s.base_model env i) s.hwords s.this_word with
  | error e => rw [ho] at h; exact Except.noConfusion h
  | ok scores =>
    rw [ho] at h
    cases hs : scoreOf (s.base_model env i) s.X_lengths with
    | error e => rw [hs] at h; exact Except.noConfusion h
    | ok ms =>
      rw [hs] at h
      injection h with h2
      injection h2 with h3 h4
      obtain ⟨m, hm, _⟩ := scoreOf_ok hs
      exact ⟨m, by rw [← h3]; exact hm, hm⟩

theorem tryDIC_shape {env : Env} {s : ModelSelector} {i : Nat} {mo : Option Model}
    {sc : PFloat} (h : tryDIC env s i = Except.ok (mo, sc)) :
    sc = PFloat.nan ∨ ∃ q, sc = PFloat.val q := by
  simp only [tryDIC] at h
  cases ho : otherScores (s.base_model env i) s.hwords s.this_word with
  | error e => rw [ho] at h; exact Except.noConfusion h
  | ok scores =>
    rw [ho] at h
    cases hs : scoreOf (s.base_model env i) s.X_lengths with
    | error e => rw [hs] at h; exact Except.noConfusion h
    | ok ms =>
      rw [hs] at h
      injection h with h2
      injection h2 with h3 h4
      rw [← h4]
      by_cases hl : scores.length = 0
      · exact Or.inl (by simp [npMean, hl, PFloat.rsub])
      · exact Or.inr ⟨ms - scores.sum / (scores.length : Rat),
          by simp [npMean, hl, PFloat.rsub]⟩

theorem applyMin_applyMin (acc : PFloat × Option Model) (e : Rat × Option Model)
    (o : Option (Rat × Option Model)) :
    applyMin (applyMin acc (some e)) o =
      applyMin acc
        (match o with
         | none => some e
         | some y => if y.1 < e.1 then some y else some e) := by
  obtain ⟨ap, am⟩ := acc
  cases o with
  | none => rfl
  | some y =>
    cases ap with
    | nan => by_cases hy : y.1 < e.1 <;> simp [applyMin, PFloat.lt, hy]
    | ninf => by_cases hy : y.1 < e.1 <;> simp [applyMin, PFloat.lt, hy]
    | inf =>
      by_cases hy : y.1 < e.1 <;> simp [applyMin, PFloat.lt, hy]
    | val a =>
      by_cases he : e.1 < a
      · by_cases hy : y.1 < e.1
        · have hya : y.1 < a := lt_trans hy he
          simp [applyMin, PFloat.lt, he, hy, hya]
        · simp [applyMin, PFloat.lt, he, hy]
      · by_cases hy : y.1 < e.1
        · simp [applyMin, PFloat.lt, he, hy]
        · have hya : ¬ y.1 < a := by
            intro hcon
            exact he (lt_of_le_of_lt (le_of_not_lt hy) hcon)
          simp [applyMin, PFloat.lt, he, hy, hya]

theorem applyMax_applyMax (acc : PFloat × Option Model) (e : Rat × Option Model)
    (o : Option (Rat × Option Model)) :
    applyMax (applyMax acc (some e)) o =
      applyMax acc
        (match o with
         | none => some e
         | some y => if e.1 < y.1 then some y else some e) := by
  obtain ⟨ap, am⟩ := acc
  cases o with
  | none => rfl
  | some y =>
    cases ap with
    | nan => by_cases hy : e.1 < y.1 <;> simp [applyMax, PFloat.lt, hy]
    | inf => by_cases hy : e.1 < y.1 <;> simp [applyMax, PFloat.lt, hy]
    | ninf =>
      by_cases hy : e.1 < y.1 <;> simp [applyMax, PFloat.lt, hy]
    | val a =>
      by_cases he : a < e.1
      · by_cases hy : e.1 < y.1
        · have hya : a < y.1 := lt_trans he hy
          simp [applyMax, PFloat.lt, he, hy, hya]
        · simp [applyMax, PFloat.lt, he, hy]
      · by_cases hy : e.1 < y.1
        · simp [applyMax, PFloat.lt, he, hy]
        · have hya : ¬ a < y.1 := by
            intro hcon
            exact he (lt_of_lt_of_le hcon (le_of_not_lt hy))
          simp [applyMax, PFloat.lt, he, hy, hya]

theorem bic_foldl (env : Env) (s : ModelSelector) :
    ∀ (l : List Nat) (acc : PFloat × Option Model),
      l.foldl (bicStep env s) acc = applyMin acc (firstMinRat (bicResultsOf env s l)) := by
  intro l
  induction l with
  | nil => intro acc; rfl
  | cons i t ih =>
    intro acc
    rw [List.foldl_cons]
    cases htry : tryBIC env s i with
    | error e =>
      have hstep : bicStep env s acc i = acc := by simp [bicStep, htry]
      have hres : bicResultsOf env s (i :: t) = bicResultsOf env s t := by
        simp [bicResultsOf, List.filterMap_cons, htry]
      rw [hstep, ih, hres]
    | ok p =>
      obtain ⟨mo, sc⟩ := p
      have hstep : bicStep env s acc i = applyMin acc (some (sc, mo)) := by
        simp [bicStep, htry, applyMin]
      have hres : bicResultsOf env s (i :: t) = (sc, mo) :: bicResultsOf env s t := by
        simp [bicResultsOf, List.filterMap_cons, htry]
      rw [hstep, ih, hres, applyMin_applyMin]
      rfl

theorem dic_foldl (env : Env) (s : ModelSelector) :
    ∀ (l : List Nat) (acc : PFloat × Option Model),
      l.foldl (dicStep env s) acc =
        applyMax acc (firstMaxRat (dicResultsValOf env s l)) := by
  intro l
  induction l with
  | nil => intro acc; rfl
  | cons i t ih =>
    intro acc
    rw [List.foldl_cons]
    cases htry : tryDIC env s i with
    | error e =>
      have hstep : dicStep env s acc i = acc := by simp [dicStep, htry]
      have hres : dicResultsValOf env s (i :: t) = dicResultsValOf env s t := by
        simp [dicResultsValOf, List.filterMap_cons, htry]
      rw [hstep, ih, hres]
    | ok p =>
      obtain ⟨mo, sc⟩ := p
      rcases tryDIC_shape htry with hnan | ⟨q, hq⟩
      · subst hnan
        have hstep : dicStep env s acc i = acc := by
          simp [dicStep, htry, PFloat.lt_nan_eq_false]
        have hres : dicResultsValOf env s (i :: t) = dicResultsValOf env s t := by
          simp [dicResultsValOf, List.filterMap_cons, htry]
        rw [hstep, ih, hres]
      · subst hq
        have hstep : dicStep env s acc i = applyMax acc (some (q, mo)) := by
          simp [dicStep, htry, applyMax]
        have hres : dicResultsValOf env s (i :: t) = (q, mo) :: dicResultsValOf env s t := by
          simp [dicResultsValOf, List.filterMap_cons, htry]
        rw [hstep, ih, hres, applyMax_applyMax]
        rfl

theorem tryCV_error (env : Env) (s : ModelSelector) (idx : Nat) :
    tryCV env s idx = Except.error () := rfl

theorem cv_select_eq_fallback (env : Env) (s : ModelSelector) :
    SelectorCV_select env s = s.base_model env s.n_constant := by
  unfold SelectorCV_select
  rw [foldl_fixed (candidateRange s) (fun acc i _ => by simp [cvStep, tryCV_error])]

theorem bic_select_char (env : Env) (s : ModelSelector) :
    SelectorBIC_select env s =
      (match firstMinRat (bicResults env s) with
       | none => s.base_model env s.n_constant
       | some p => p.2) := by
  unfold SelectorBIC_select bicResults
  rw [bic_foldl]
  cases h : firstMinRat (bicResultsOf env s (candidateRange s)) with
  | none => rfl
  | some p => simp [applyMin, PFloat.lt]

theorem dic_select_char (env : Env) (s : ModelSelector) :
    SelectorDIC_select env s =
      (match firstMaxRat (dicResultsVal env s) with
       | none => s.base_model env s.n_constant
       | some p => p.2) := by
  unfold SelectorDIC_select dicResultsVal
  rw [dic_foldl]
  cases h : firstMaxRat (dicResultsValOf env s (candidateRange s)) with
  | none => rfl
  | some p => simp [applyMax, PFloat.lt]

theorem base_model_none_iff {s : ModelSelector} {env : Env} {n : Nat} :
    s.base_model env n = none ↔ env.fit s.X_lengths n = Except.error () := by
  unfold ModelSelector.base_model
  cases h : env.fit s.X_lengths n with
  | ok m => simp
  | error e => cases e; simp

theorem otherScores_lone (mo : Option Model) (w : String) :
    ∀ (hwords : List (String × Data)), (∀ p, p ∈ hwords → p.1 = w) →
      otherScores mo hwords w = Except.ok [] := by
  intro hwords
  induction hwords with
  | nil => intro _; rfl
  | cons p rest ih =>
    intro h
    obtain ⟨word, d⟩ := p
    have hw : word = w := h (word, d) (List.mem_cons_self _ _)
    simp only [otherScores, hw, ne_eq, not_true_eq_false, if_false]
    exact ih (fun q hq => h q (List.mem_cons_of_mem _ hq))

/-! Claim theorems. -/

/-- Claim C1 (refuted by evaluation): in a context where every fit succeeds
and the target word has exactly 3 raw sequences, `SelectorCV.select`
returns the `n_constant = 5` fallback model, outside the candidate range
`[2, 3]`: no fold is ever fitted or scored, because line 157 calls the
`KFold` object itself (not its `split` method) and raises `TypeError` on
every candidate iteration. -/
theorem cv_never_cross_validates_eval :
    SelectorCV_select envOkW selW = some (modelOkW 5)
    ∧ (modelOkW 5).n_components = 5
    ∧ selW.min_n_components = 2 ∧ selW.max_n_components = 3
    ∧ selW.n_constant = 5 ∧ selW.sequences.length = 3 :=
  ⟨rfl, rfl, rfl, rfl, rfl, rfl⟩

/-- Claim C2: for every environment and selection context,
`SelectorCV.select` returns exactly what `SelectorConstant.select` returns,
and every candidate iteration of the CV loop raises before the fold loop
body runs (the `KFold` object is invoked as a callable). -/
theorem cv_select_eq_constant_select (env : Env) (s : ModelSelector) :
    SelectorCV_select env s = SelectorConstant_select env s
    ∧ (∀ idx, tryCV env s idx = Except.error ()) :=
  ⟨cv_select_eq_fallback env s, fun _ => rfl⟩

/-- Claim C3: for a candidate size `n` whose fit and scoring succeed,
`SelectorBIC` computes `BIC(n) = -2·logL + p(n)·ln(N)`, where `logL` is the
fitted model's log-likelihood on the item's own `(X, lengths)`, `N` is the
number of feature vectors (rows of `X`), and
`p(n) = n² + 2·n·d − 1` with `d = model.n_features`. -/
theorem bic_score_formula (env : Env) (s : ModelSelector) (n : Nat) (m : Model)
    (logL : Rat) (h1 : s.base_model env n = some m)
    (h2 : m.score s.X_lengths = Except.ok logL) :
    tryBIC env s n =
      Except.ok (some m,
        -2 * logL +
          ((((n : Nat) : Int) ^ 2 + 2 * ((n : Nat) : Int) * ((m.n_features : Nat) : Int)
              - 1 : Int) : Rat) *
            env.mlog s.X_lengths.X.length) := by
  simp [tryBIC, h1, nFeaturesOf, scoreOf, h2]

/-- Witness for C3 at a concrete context: candidate size 3, one feature,
log-likelihood 10, four feature vectors. -/
theorem bic_score_formula_witness :
    selW.base_model envOkW 3 = some (modelOkW 3) ∧
    (modelOkW 3).score selW.X_lengths = Except.ok 10 ∧
    tryBIC envOkW selW 3 =
      Except.ok (some (modelOkW 3),
        -2 * 10 +
          ((((3 : Nat) : Int) ^ 2 + 2 * ((3 : Nat) : Int)
              * (((modelOkW 3).n_features : Nat) : Int) - 1 : Int) : Rat) *
            envOkW.mlog selW.X_lengths.X.length) :=
  ⟨rfl, rfl, bic_score_formula envOkW selW 3 (modelOkW 3) 10 rfl rfl⟩

/-- Claim C4: `SelectorBIC.select` scans the ascending candidate list
`[min_n_components, …, max_n_components]`, returns the model of the
first-seen candidate achieving the minimal BIC score among the candidates
whose evaluation succeeded (falling back to the `n_constant` model when no
candidate succeeded), and every recorded candidate has a successfully
fitted model (`≠ none`), so a failed fit is never selected. -/
theorem bic_selection_rule (env : Env) (s : ModelSelector) :
    SelectorBIC_select env s =
      (match firstMinRat (bicResults env s) with
       | none => s.base_model env s.n_constant
       | some p => p.2)
    ∧ (∀ p, p ∈ bicResults env s → p.2 ≠ none)
    ∧ List.Pairwise (· < ·) (candidateRange s)
    ∧ (∀ i, i ∈ candidateRange s ↔
        s.min_n_components ≤ i ∧ i ≤ s.max_n_components) := by
  refine ⟨bic_select_char env s, ?_, ?_, fun i => mem_candidateRange⟩
  · intro p hp
    unfold bicResults bicResultsOf at hp
    rw [List.mem_filterMap] at hp
    obtain ⟨i, _, hi⟩ := hp
    cases htry : tryBIC env s i with
    | error e => rw [htry] at hi; exact Option.noConfusion hi
    | ok pr =>
      obtain ⟨mo, sc⟩ := pr
      rw [htry] at hi
      injection hi with hi2
      obtain ⟨m, hm, _⟩ := tryBIC_ok htry
      rw [← hi2]
      simp [hm]
  · unfold candidateRange
    exact List.pairwise_lt_range' _ _

/-- Witness for C4: the selection-rule equation evaluated at a concrete
context (every fit succeeds, scores constant, range `[2, 3]`). -/
theorem bic_selection_rule_witness :
    SelectorBIC_select envOkW selW =
      (match firstMinRat (bicResults envOkW selW) with
       | none => selW.base_model envOkW selW.n_constant
       | some p => p.2)
    ∧ (bicResults envOkW selW).map Prod.fst = [-13, -6] :=
  ⟨(bic_selection_rule envOkW selW).1, by
    simp only [bicResults, bicResultsOf, candidateRange, selW, envOkW, modelOkW,
      dataW, tryBIC, nFeaturesOf, scoreOf, ModelSelector.base_model, List.range',
      List.filterMap_cons, List.filterMap_nil, List.map_cons, List.map_nil]
    norm_num⟩

/-- Claim C5: for every candidate whose fit and all scorings succeed,
`SelectorDIC` computes `DIC(n) = own_score − mean(other_scores)` where the
other scores come from the same fitted model applied to every other word's
data; the mean of a nonempty list is `sum / length`; a candidate whose own
fit fails is skipped entirely; and the returned model is that of the
first-seen candidate maximizing the DIC score among the successfully
(non-NaN) scored candidates, with the `n_constant` fallback otherwise. -/
theorem dic_formula_and_selection (env : Env) (s : ModelSelector) :
    (∀ i m l own,
        s.base_model env i = some m →
        otherScores (some m) s.hwords s.this_word = Except.ok l →
        m.score s.X_lengths = Except.ok own →
        tryDIC env s i = Except.ok (some m, PFloat.rsub own (npMean l)))
    ∧ (∀ l : List Rat, l ≠ [] → npMean l = PFloat.val (l.sum / (l.length : Rat)))
    ∧ (∀ i, s.base_model env i = none → tryDIC env s i = Except.error ())
    ∧ SelectorDIC_select env s =
        (match firstMaxRat (dicResultsVal env s) with
         | none => s.base_model env s.n_constant
         | some p => p.2) := by
  refine ⟨?_, ?_, ?_, dic_select_char env s⟩
  · intro i m l own h1 h2 h3
    simp [tryDIC, h1, h2, scoreOf, h3]
  · intro l hl
    unfold npMean
    rw [if_neg (by simpa [List.length_eq_zero] using hl)]
  · intro i h1
    simp only [tryDIC, h1]
    cases ho : otherScores none s.hwords s.this_word with
    | error e => cases e; rfl
    | ok scores => rfl

/-- Witness for C5 at a concrete context: candidate 2, one other word with
log-likelihood 10, own log-likelihood 10. -/
theorem dic_formula_and_selection_witness :
    selW.base_model envOkW 2 = some (modelOkW 2)
    ∧ tryDIC envOkW selW 2 =
        Except.ok (some (modelOkW 2), PFloat.rsub 10 (npMean [10]))
    ∧ SelectorDIC_select envOkW selW =
        (match firstMaxRat (dicResultsVal envOkW selW) with
         | none => selW.base_model envOkW selW.n_constant
         | some p => p.2) :=
  ⟨rfl,
   (dic_formula_and_selection envOkW selW).1 2 (modelOkW 2) [10] 10 rfl rfl rfl,
   (dic_formula_and_selection envOkW selW).2.2.2⟩

/-- Claim C6: for each searching strategy, if every candidate of the scan
fails then `select` returns the Fixed-strategy fallback
`base_model(n_constant)`, and the result is absent exactly when that
fallback fit itself fails.  `SelectorCV.select` satisfies this
unconditionally, since every one of its candidates always fails. -/
theorem all_candidates_fail_fallback (env : Env) (s : ModelSelector) :
    ((∀ i, i ∈ candidateRange s → tryBIC env s i = Except.error ()) →
       SelectorBIC_select env s = s.base_model env s.n_constant
       ∧ (SelectorBIC_select env s = none ↔
           env.fit s.X_lengths s.n_constant = Except.error ()))
    ∧ ((∀ i, i ∈ candidateRange s → tryDIC env s i = Except.error ()) →
       SelectorDIC_select env s = s.base_model env s.n_constant
       ∧ (SelectorDIC_select env s = none ↔
           env.fit s.X_lengths s.n_constant = Except.error ()))
    ∧ (SelectorCV_select env s = s.base_model env s.n_constant
       ∧ (SelectorCV_select env s = none ↔
           env.fit s.X_lengths s.n_constant = Except.error ())) := by
  have hbic : (∀ i, i ∈ candidateRange s → tryBIC env s i = Except.error ()) →
      SelectorBIC_select env s = s.base_model env s.n_constant := by
    intro h
    unfold SelectorBIC_select
    rw [foldl_fixed (candidateRange s) (fun acc i hi => by simp [bicStep, h i hi])]
  have hdic : (∀ i, i ∈ candidateRange s → tryDIC env s i = Except.error ()) →
      SelectorDIC_select env s = s.base_model env s.n_constant := by
    intro h
    unfold SelectorDIC_select
    rw [foldl_fixed (candidateRange s) (fun acc i hi => by simp [dicStep, h i hi])]
  refine ⟨fun h => ⟨hbic h, ?_⟩, fun h => ⟨hdic h, ?_⟩,
    cv_select_eq_fallback env s, ?_⟩
  · rw [hbic h]; exact base_model_none_iff
  · rw [hdic h]; exact base_model_none_iff
  · rw [cv_select_eq_fallback env s]; exact base_model_none_iff

/-- Witness for C6 in a concrete environment whose fitter always fails:
every candidate of every strategy fails, each strategy returns the (here
absent) fallback. -/
theorem all_candidates_fail_fallback_witness :
    SelectorBIC_select envFailW selW = selW.base_model envFailW selW.n_constant
    ∧ SelectorDIC_select envFailW selW = selW.base_model envFailW selW.n_constant
    ∧ (SelectorCV_select envFailW selW = none ↔
        envFailW.fit selW.X_lengths selW.n_constant = Except.error ()) :=
  ⟨((all_candidates_fail_fallback envFailW selW).1 (fun i _ => rfl)).1,
   ((all_candidates_fail_fallback envFailW selW).2.1 (fun i _ => rfl)).1,
   (all_candidates_fail_fallback envFailW selW).2.2.2⟩

/-- Claim C7: under the fitter contract that a successfully fitted model
carries the requested state count, whenever any of the four strategies
returns a model, that model's hidden-state count lies in
`[min_n_components, max_n_components]` or equals `n_constant`. -/
theorem selected_states_in_range (env : Env) (s : ModelSelector)
    (hfit : fitComponentsOk env) :
    (∀ m, SelectorConstant_select env s = some m → m.n_components = s.n_constant)
    ∧ (∀ m, SelectorBIC_select env s = some m →
        (s.min_n_components ≤ m.n_components ∧ m.n_components ≤ s.max_n_components)
          ∨ m.n_components = s.n_constant)
    ∧ (∀ m, SelectorDIC_select env s = some m →
        (s.min_n_components ≤ m.n_components ∧ m.n_components ≤ s.max_n_components)
          ∨ m.n_components = s.n_constant)
    ∧ (∀ m, SelectorCV_select env s = some m →
        (s.min_n_components ≤ m.n_components ∧ m.n_components ≤ s.max_n_components)
          ∨ m.n_components = s.n_constant) := by
  have hinit : statesOk s (s.base_model env s.n_constant) := by
    intro m hm
    exact Or.inr (hfit _ _ _ (base_model_some hm))
  have hbicstep : ∀ acc i, i ∈ candidateRange s →
      statesOk s acc.2 → statesOk s (bicStep env s acc i).2 := by
    intro acc i hi hacc
    cases htry : tryBIC env s i with
    | error e =>
      have hq : bicStep env s acc i = acc := by simp [bicStep, htry]
      rw [hq]; exact hacc
    | ok pr =>
      obtain ⟨mo, sc⟩ := pr
      have hsplit : bicStep env s acc i = (PFloat.val sc, mo)
          ∨ bicStep env s acc i = acc := by
        simp only [bicStep, htry]
        split
        · exact Or.inl rfl
        · exact Or.inr rfl
      rcases hsplit with hq | hq
      · rw [hq]
        intro m hm
        obtain ⟨m2, hm2, hbm⟩ := tryBIC_ok htry
        rw [hm2] at hm
        injection hm with hm3
        subst hm3
        left
        rw [hfit _ _ _ (base_model_some hbm)]
        exact mem_candidateRange.mp hi
      · rw [hq]; exact hacc
  have hdicstep : ∀ acc i, i ∈ candidateRange s →
      statesOk s acc.2 → statesOk s (dicStep env s acc i).2 := by
    intro acc i hi hacc
    cases htry : tryDIC env s i with
    | error e =>
      have hq : dicStep env s acc i = acc := by simp [dicStep, htry]
      rw [hq]; exact hacc
    | ok pr =>
      obtain ⟨mo, sc⟩ := pr
      have hsplit : dicStep env s acc i = (sc, mo)
          ∨ dicStep env s acc i = acc := by
        simp only [dicStep, htry]
        split
        · exact Or.inl rfl
        · exact Or.inr rfl
      rcases hsplit with hq | hq
      · rw [hq]
        intro m hm
        obtain ⟨m2, hm2, hbm⟩ := tryDIC_ok htry
        rw [hm2] at hm
        injection hm with hm3
        subst hm3
        left
        rw [hfit _ _ _ (base_model_some hbm)]
        exact mem_candidateRange.mp hi
      · rw [hq]; exact hacc
  refine ⟨?_, ?_, ?_, ?_⟩
  · intro m hm
    exact hfit _ _ _ (base_model_some hm)
  · exact fun m hm =>
      foldl_snd_invariant (statesOk s) (candidateRange s) hbicstep _ hinit m hm
  · exact fun m hm =>
      foldl_snd_invariant (statesOk s) (candidateRange s) hdicstep _ hinit m hm
  · intro m hm
    rw [cv_select_eq_fallback env s] at hm
    exact hinit m hm

/-- The always-successful concrete environment satisfies the fitter
contract. -/
theorem fitComponentsOk_envOkW : fitComponentsOk envOkW := by
  intro d n m h
  have h2 : Except.ok (modelOkW n) = Except.ok m := h
  injection h2 with h3
  rw [← h3]
  rfl

/-- Witness for C7: the Constant strategy at the concrete context returns
the 5-state model, whose state count is `n_constant`. -/
theorem selected_states_in_range_witness :
    SelectorConstant_select envOkW selW = some (modelOkW 5)
    ∧ (modelOkW 5).n_components = selW.n_constant :=
  ⟨rfl,
   (selected_states_in_range envOkW selW fitComponentsOk_envOkW).1 (modelOkW 5) rfl⟩

/-- Claim C8: no fit or score failure reaches the caller of `select`.
`base_model` turns every fitting failure into an absent model (first
conjunct, both directions), and each strategy's search is a total function
whose only failure mode is an absent result, which occurs only when the
fallback fit itself failed (remaining conjuncts). -/
theorem no_failure_propagates (env : Env) (s : ModelSelector) :
    (∀ n, s.base_model env n = none ↔ env.fit s.X_lengths n = Except.error ())
    ∧ (SelectorBIC_select env s = none → s.base_model env s.n_constant = none)
    ∧ (SelectorDIC_select env s = none → s.base_model env s.n_constant = none)
    ∧ (SelectorCV_select env s = none → s.base_model env s.n_constant = none) := by
  have hstepB : ∀ acc i, i ∈ candidateRange s →
      (acc.2 = none → s.base_model env s.n_constant = none) →
      ((bicStep env s acc i).2 = none → s.base_model env s.n_constant = none) := by
    intro acc i _ hacc
    cases htry : tryBIC env s i with
    | error e =>
      have hq : bicStep env s acc i = acc := by simp [bicStep, htry]
      rw [hq]; exact hacc
    | ok pr =>
      obtain ⟨mo, sc⟩ := pr
      have hsplit : bicStep env s acc i = (PFloat.val sc, mo)
          ∨ bicStep env s acc i = acc := by
        simp only [bicStep, htry]
        split
        · exact Or.inl rfl
        · exact Or.inr rfl
      rcases hsplit with hq | hq
      · rw [hq]
        intro hmo
        obtain ⟨m2, hm2, _⟩ := tryBIC_ok htry
        rw [hm2] at hmo
        exact Option.noConfusion hmo
      · rw [hq]; exact hacc
  have hstepD : ∀ acc i, i ∈ candidateRange s →
      (acc.2 = none → s.base_model env s.n_constant = none) →
      ((dicStep env s acc i).2 = none → s.base_model env s.n_constant = none) := by
    intro acc i _ hacc
    cases htry : tryDIC env s i with
    | error e =>
      have hq : dicStep env s acc i = acc := by simp [dicStep, htry]
      rw [hq]; exact hacc
    | ok pr =>
      obtain ⟨mo, sc⟩ := pr
      have hsplit : dicStep env s acc i = (sc, mo)
          ∨ dicStep env s acc i = acc := by
        simp only [dicStep, htry]
        split
        · exact Or.inl rfl
        · exact Or.inr rfl
      rcases hsplit with hq | hq
      · rw [hq]
        intro hmo
        obtain ⟨m2, hm2, _⟩ := tryDIC_ok htry
        rw [hm2] at hmo
        exact Option.noConfusion hmo
      · rw [hq]; exact hacc
  refine ⟨fun n => base_model_none_iff, ?_, ?_, ?_⟩
  · exact fun h => foldl_snd_invariant
      (fun om => om = none → s.base_model env s.n_constant = none)
      (candidateRange s) hstepB _ (fun hh => hh) h
  · exact fun h => foldl_snd_invariant
      (fun om => om = none → s.base_model env s.n_constant = none)
      (candidateRange s) hstepD _ (fun hh => hh) h
  · intro h
    rw [cv_select_eq_fallback env s] at h
    exact h

/-- Witness for C8 in the always-failing environment: the absent-model
equivalence at candidate 2, and the conclusion that an absent BIC result
means the fallback fit failed. -/
theorem no_failure_propagates_witness :
    (selW.base_model envFailW 2 = none ↔
      envFailW.fit selW.X_lengths 2 = Except.error ())
    ∧ selW.base_model envFailW selW.n_constant = none :=
  ⟨(no_failure_propagates envFailW selW).1 2,
   (no_failure_propagates envFailW selW).2.1 rfl⟩

/-- Claim C9: for an item with fewer raw sequences than the `splits = 3`
fold count, `SelectorCV.select` terminates normally (it is a total
function of its inputs) and returns the Fixed-strategy fallback model
rather than raising. -/
theorem cv_few_sequences_safe (env : Env) (s : ModelSelector)
    (_h : s.sequences.length < 3) :
    SelectorCV_select env s = s.base_model env s.n_constant :=
  cv_select_eq_fallback env s

/-- Witness for C9: the concrete context with a single raw sequence. -/
theorem cv_few_sequences_safe_witness :
    selShortW.sequences.length < 3
    ∧ SelectorCV_select envOkW selShortW =
        selShortW.base_model envOkW selShortW.n_constant :=
  ⟨by decide, cv_few_sequences_safe envOkW selShortW (by decide)⟩

/-- Claim C10: when the collection contains only the target word, every DIC
candidate whose fit and own scoring succeed gets the NaN score produced by
the empty mean, NaN never compares greater than the running best, so no
candidate is ever selected and the `n_constant` fallback model is
returned. -/
theorem dic_lone_word_fallback (env : Env) (s : ModelSelector)
    (honly : ∀ p, p ∈ s.hwords → p.1 = s.this_word) :
    npMean [] = PFloat.nan
    ∧ (∀ x, PFloat.lt x PFloat.nan = false)
    ∧ (∀ i m own, s.base_model env i = some m →
        m.score s.X_lengths = Except.ok own →
        tryDIC env s i = Except.ok (some m, PFloat.nan))
    ∧ SelectorDIC_select env s = s.base_model env s.n_constant := by
  have hlone : ∀ mo, otherScores mo s.hwords s.this_word = Except.ok [] :=
    fun mo => otherScores_lone mo s.this_word s.hwords honly
  refine ⟨rfl, PFloat.lt_nan_eq_false, ?_, ?_⟩
  · intro i m own h1 h2
    simp [tryDIC, h1, hlone, scoreOf, h2, npMean, PFloat.rsub]
  · have hstep : ∀ acc i, i ∈ candidateRange s → dicStep env s acc i = acc := by
      intro acc i _
      cases htry : tryDIC env s i with
      | error e => simp [dicStep, htry]
      | ok pr =>
        obtain ⟨mo, sc⟩ := pr
        have hnan : sc = PFloat.nan := by
          simp only [tryDIC, hlone] at htry
          cases hs : scoreOf (s.base_model env i) s.X_lengths with
          | error e => rw [hs] at htry; exact Except.noConfusion htry
          | ok own =>
            rw [hs] at htry
            injection htry with h2
            injection h2 with h3 h4
            rw [← h4]
            rfl
        subst hnan
        simp [dicStep, htry, PFloat.lt_nan_eq_false]
    unfold SelectorDIC_select
    rw [foldl_fixed (candidateRange s) hstep]

/-- Witness for C10: the concrete lone-word context with an always-ok
fitter; the premise holds by computation and the fallback is returned. -/
theorem dic_lone_word_fallback_witness :
    (∀ p, p ∈ selOnlyW.hwords → p.1 = selOnlyW.this_word)
    ∧ SelectorDIC_select envOkW selOnlyW =
        selOnlyW.base_model envOkW selOnlyW.n_constant :=
  ⟨by decide, (dic_lone_word_fallback envOkW selOnlyW (by decide)).2.2.2⟩
